import Mathlib

set_option maxHeartbeats 1000000

/-!
Shallow embedding of `examples/common/python/utility/utility.py` from the
trusted-compute-framework repository, together with theorems settling the
frozen claims about the work-order response decryption pipeline.

Conventions of the embedding:
* Python byte strings are `List Nat` (one entry per byte value).
* Python `str.encode('UTF-8')` is modelled concretely by `utf8_encode`;
  `bytes.decode('UTF-8')` by `utf8_decode_list` (strict UTF-8 validation).
* The external crypto library (`crypto.crypto`) and the base64 module are an
  explicit capability record `CryptoProvider`, since the repository treats
  them as collaborators supplied from outside this file's source.
* Python exceptions become `Except UtilError`; a `None` argument becomes
  `Option.none`.
-/

/-- Byte strings are modelled as lists of natural numbers (byte values). -/
abbrev Bytes := List Nat

/-- UTF-8 encoding of a single code point, as Python's `str.encode('UTF-8')`
performs per character. -/
def utf8_encode_char (n : Nat) : List Nat :=
  if n < 0x80 then [n]
  else if n < 0x800 then [0xC0 + n / 0x40, 0x80 + n % 0x40]
  else if n < 0x10000 then
    [0xE0 + n / 0x1000, 0x80 + n / 0x40 % 0x40, 0x80 + n % 0x40]
  else
    [0xF0 + n / 0x40000, 0x80 + n / 0x1000 % 0x40, 0x80 + n / 0x40 % 0x40,
     0x80 + n % 0x40]

/-- UTF-8 encoding of a list of characters. -/
def utf8_encode_chars : List Char → List Nat
  | [] => []
  | c :: cs => utf8_encode_char c.toNat ++ utf8_encode_chars cs

/-- Python `s.encode('UTF-8')` for a whole string. -/
def utf8_encode (s : String) : List Nat := utf8_encode_chars s.data

/-- Decode one UTF-8 encoded code point from the front of a byte list,
rejecting malformed leads, bad continuation bytes, overlong forms,
surrogates and values above U+10FFFF, as Python's strict
`bytes.decode('UTF-8')` does. -/
def utf8_decode_one : List Nat → Option (Nat × List Nat)
  | [] => none
  | b :: bs =>
    if b < 0x80 then some (b, bs)
    else if b < 0xC2 then none
    else if b < 0xE0 then
      match bs with
      | b2 :: bs2 =>
        if 0x80 ≤ b2 ∧ b2 < 0xC0 then
          some ((b - 0xC0) * 0x40 + (b2 - 0x80), bs2)
        else none
      | [] => none
    else if b < 0xF0 then
      match bs with
      | b2 :: b3 :: bs3 =>
        if (0x80 ≤ b2 ∧ b2 < 0xC0) ∧ (0x80 ≤ b3 ∧ b3 < 0xC0)
            ∧ (b = 0xE0 → 0xA0 ≤ b2) ∧ (b = 0xED → b2 < 0xA0) then
          some ((b - 0xE0) * 0x1000 + (b2 - 0x80) * 0x40 + (b3 - 0x80), bs3)
        else none
      | _ => none
    else if b < 0xF5 then
      match bs with
      | b2 :: b3 :: b4 :: bs4 =>
        if (0x80 ≤ b2 ∧ b2 < 0xC0) ∧ (0x80 ≤ b3 ∧ b3 < 0xC0)
            ∧ (0x80 ≤ b4 ∧ b4 < 0xC0)
            ∧ (b = 0xF0 → 0x90 ≤ b2) ∧ (b = 0xF4 → b2 < 0x90) then
          some ((b - 0xF0) * 0x40000 + (b2 - 0x80) * 0x1000
                + (b3 - 0x80) * 0x40 + (b4 - 0x80), bs4)
        else none
      | _ => none
    else none

/-- Fuelled driver for whole-buffer UTF-8 decoding. -/
def utf8_decode_aux : Nat → List Nat → Option (List Char)
  | _, [] => some []
  | 0, _ :: _ => none
  | fuel + 1, l =>
    match utf8_decode_one l with
    | none => none
    | some (n, rest) =>
      (utf8_decode_aux fuel rest).map (fun cs => Char.ofNat n :: cs)

/-- Python `bytes.decode('UTF-8')`: `none` models `UnicodeDecodeError`. -/
def utf8_decode_list (l : List Nat) : Option (List Char) :=
  utf8_decode_aux l.length l

/-- Python `str.upper()` (ASCII letters, as used for hex digests and unit
names in the source). -/
def pyUpper (s : String) : String := String.mk (s.data.map Char.toUpper)

/-- Errors surfaced by the utility functions; Python exception classes are
collapsed into one error enumeration.  `missingKeyContext` stands for the
failure of the symmetric-decrypt call when it is handed the absent
(`None`) one-time data key. -/
inductive UtilError where
  | missingKeyContext
  | decryptionError
  | base64DecodeError
  | unicodeDecodeError
  | valueError
deriving DecidableEq, Repr

/-- The capability surface of the external crypto / base64 collaborators
used by `utility.py`.  `base64_to_byte_array` is `crypto.base64_to_byte_array`
(`none` = rejected input), `b64decode` is the stdlib `base64.b64decode`
applied to a byte string. -/
structure CryptoProvider where
  SKENC_EncryptMessage : Bytes → Bytes → String → String
  SKENC_EncryptMessageNoIV : Bytes → String → String
  SKENC_DecryptMessage : Bytes → Bytes → Bytes → Bytes
  SKENC_DecryptMessageNoIV : Bytes → Bytes → Bytes
  base64_to_byte_array : String → Option Bytes
  byte_array_to_string : Bytes → String
  compute_message_hash : Bytes → Bytes
  byte_array_to_hex_str : Bytes → String
  b64decode : Bytes → Option Bytes

/-- One entry of `result.outData` in a work-order response, as read from
JSON: all three fields are strings. -/
structure OutDataItem where
  data : String
  iv : String
  encryptedDataEncryptionKey : String
deriving DecidableEq, Repr

/-- A Python value sitting in the `data` field after `decrypted_response`
ran: either still / newly a `str`, or a `bytes` object (the skip branch
stores `item['data'].encode('UTF-8')`). -/
inductive DataVal where
  | str : String → DataVal
  | bytes : Bytes → DataVal
deriving DecidableEq, Repr

/-- An out-data entry after processing (the `data` field may now hold a
`bytes` value). -/
structure OutItemResult where
  data : DataVal
  iv : String
  encryptedDataEncryptionKey : String
deriving DecidableEq, Repr

/-- The `result` payload of a work-order response before processing. -/
structure WorkOrderResult where
  outData : List OutDataItem
deriving DecidableEq, Repr

/-- A work-order response before processing (`input_json`). -/
structure WorkOrderResponse where
  result : WorkOrderResult
deriving DecidableEq, Repr

/-- The `result` payload after `decrypted_response` updated it in place. -/
structure WorkOrderResultPost where
  outData : List OutItemResult
deriving DecidableEq, Repr

/-- The state of `input_json` after the call (the same dictionary object,
with its `outData` entries overwritten). -/
structure WorkOrderResponsePost where
  result : WorkOrderResultPost
deriving DecidableEq, Repr

/-- `utility.decrypt_data(encryption_key, data, iv=None)`: returns `data`
unchanged when it is empty, otherwise base64-decodes it, feeds it to the
symmetric-decrypt primitive (IV variant chosen by presence of `iv`) and
converts the result to a string.  A `None` encryption key makes the
primitive call fail, which we surface as `missingKeyContext`. -/
def decrypt_data (cp : CryptoProvider) (encryption_key : Option Bytes)
    (data : String) (iv : Option Bytes) : Except UtilError String :=
  if data = "" then Except.ok data
  else
    match cp.base64_to_byte_array data with
    | none => Except.error UtilError.decryptionError
    | some data_byte =>
      match encryption_key with
      | none => Except.error UtilError.missingKeyContext
      | some key =>
        let decrypt_result :=
          match iv with
          | some ivb => cp.SKENC_DecryptMessage key ivb data_byte
          | none => cp.SKENC_DecryptMessageNoIV key data_byte
        Except.ok (cp.byte_array_to_string decrypt_result)

/-- `utility.encrypt_data(data, encryption_key, iv=None)`. -/
def encrypt_data (cp : CryptoProvider) (data : String)
    (encryption_key : Bytes) (iv : Option Bytes) : String :=
  match iv with
  | some ivb => cp.SKENC_EncryptMessage encryption_key ivb data
  | none => cp.SKENC_EncryptMessageNoIV encryption_key data

/-- The loop body of `utility.decrypted_response`, with the cross-iteration
`do_decrypt` flag made explicit.  `sel` is the triple
(`data_encryption_key_byte`, `iv`, `do_decrypt`) after the key-id branch;
when `do_decrypt` is false the item's encoded bytes are stored and the
logging line base64- and UTF-8-decodes them (which can raise); otherwise
`decrypt_data` runs with the selected key and IV. -/
def processOutData (cp : CryptoProvider) (session_key session_iv : Bytes)
    (data_key data_iv : Option Bytes) :
    Bool → List OutDataItem → Except UtilError (List OutItemResult)
  | _, [] => Except.ok []
  | do_decrypt, item :: rest =>
    let data := utf8_encode item.data
    let e_key := utf8_encode item.encryptedDataEncryptionKey
    let sel : Option Bytes × Option Bytes × Bool :=
      if e_key = [] ∨ e_key = utf8_encode "null" then
        (some session_key, some session_iv, do_decrypt)
      else if e_key = utf8_encode "-" then
        (none, some (utf8_encode item.iv), false)
      else
        (data_key, data_iv, do_decrypt)
    if sel.2.2 = false then
      match cp.b64decode data with
      | none => Except.error UtilError.base64DecodeError
      | some decoded =>
        match utf8_decode_list decoded with
        | none => Except.error UtilError.unicodeDecodeError
        | some _ =>
          (processOutData cp session_key session_iv data_key data_iv
              sel.2.2 rest).map
            (fun rs =>
              ⟨DataVal.bytes data, item.iv,
               item.encryptedDataEncryptionKey⟩ :: rs)
    else
      match decrypt_data cp sel.1 item.data sel.2.1 with
      | Except.error e => Except.error e
      | Except.ok plain =>
        (processOutData cp session_key session_iv data_key data_iv
            sel.2.2 rest).map
          (fun rs =>
            ⟨DataVal.str plain, item.iv,
             item.encryptedDataEncryptionKey⟩ :: rs)

/-- `utility.decrypted_response(input_json, session_key, session_iv,
data_key=None, data_iv=None)`.  The source overwrites
`input_json['result']['outData'][i]['data']` in place and returns
`input_json_params['outData']`; the embedding therefore returns both the
post-call state of `input_json` and the returned list, which alias the
same sequence. -/
def decrypted_response (cp : CryptoProvider) (input_json : WorkOrderResponse)
    (session_key session_iv : Bytes) (data_key data_iv : Option Bytes) :
    Except UtilError (WorkOrderResponsePost × List OutItemResult) :=
  (processOutData cp session_key session_iv data_key data_iv true
      input_json.result.outData).map
    (fun rs => (⟨⟨rs⟩⟩, rs))

/-- `utility.compute_data_hash(data)`. -/
def compute_data_hash (cp : CryptoProvider) (data : String) : Bytes :=
  cp.compute_message_hash (utf8_encode data)

/-- `utility.verify_data_hash(msg, data_hash)`. -/
def verify_data_hash (cp : CryptoProvider) (msg data_hash : String) : Bool :=
  if pyUpper (cp.byte_array_to_hex_str (compute_data_hash cp msg))
      = pyUpper data_hash then true else false

/-- Helper for Python `str.split()`: cut a character list at runs of
whitespace, dropping empty pieces. -/
def splitWsAux : List Char → List Char → List (List Char)
  | acc, [] => if acc = [] then [] else [acc.reverse]
  | acc, c :: cs =>
    if c = ' ' ∨ c = '\t' ∨ c = '\n' ∨ c = '\r' ∨ c = '\x0b' ∨ c = '\x0c' then
      if acc = [] then splitWsAux [] cs
      else acc.reverse :: splitWsAux [] cs
    else splitWsAux (c :: acc) cs

/-- Python `str.split()` with no separator argument. -/
def pySplit (s : String) : List String :=
  (splitWsAux [] s.data).map String.mk

/-- Digit-run parser for Python `int()`: digits with single underscores
allowed between digits. -/
def pyDigits : Nat → List Char → Option Nat
  | acc, [] => some acc
  | acc, c :: cs =>
    if c.isDigit then pyDigits (10 * acc + (c.toNat - 48)) cs
    else if c = '_' then
      match cs with
      | d :: ds =>
        if d.isDigit then pyDigits (10 * acc + (d.toNat - 48)) ds else none
      | [] => none
    else none

/-- Start of a digit run for Python `int()`: must begin with a digit. -/
def pyIntStart : List Char → Option Nat
  | [] => none
  | c :: cs => if c.isDigit then pyDigits (c.toNat - 48) cs else none

/-- Python `int(s)` on a whitespace-free token: optional sign followed by
digits (underscore separators allowed); `none` models `ValueError`. -/
def pyIntParse (s : String) : Option Int :=
  match s.data with
  | '+' :: rest => (pyIntStart rest).map (fun n => (n : Int))
  | '-' :: rest => (pyIntStart rest).map (fun n => -(n : Int))
  | l => (pyIntStart l).map (fun n => (n : Int))

/-- The unit table of `utility.human_read_to_byte`. -/
def size_name : List String :=
  ["B", "KB", "MB", "GB", "TB", "PB", "EB", "ZB", "YB"]

/-- Python `list.index` returning `none` instead of raising. -/
def listIndex? : List String → String → Option Nat
  | [], _ => none
  | x :: xs, u => if x = u then some 0 else (listIndex? xs u).map (· + 1)

/-- `utility.human_read_to_byte(size)`: every failure path raises
`ValueError` (either the explicit `raise ValueError("Invalid size")` or the
propagated / re-raised `ValueError` from `int()` and `list.index`). -/
def human_read_to_byte (size : String) : Except UtilError Int :=
  let parts := pySplit size
  if parts.length ≠ 2 then Except.error UtilError.valueError
  else
    match pyIntParse (parts.headD "") with
    | none => Except.error UtilError.valueError
    | some n =>
      if n ≤ 0 then Except.error UtilError.valueError
      else
        match listIndex? size_name (pyUpper (parts.getD 1 "")) with
        | none => Except.error UtilError.valueError
        | some idx => Except.ok (n * (1024 : Int) ^ idx)

/-- A deterministic toy provider used to evaluate the pipeline on concrete
inputs: "encryption" prepends one marker character, "decryption" drops one
byte, base64 transport is the identity on byte content. -/
def toyOK : CryptoProvider where
  SKENC_EncryptMessage := fun _ _ pt => "E" ++ pt
  SKENC_EncryptMessageNoIV := fun _ pt => "E" ++ pt
  SKENC_DecryptMessage := fun _ _ ct => ct.drop 1
  SKENC_DecryptMessageNoIV := fun _ ct => ct.drop 1
  base64_to_byte_array := fun s => some (utf8_encode s)
  byte_array_to_string := fun b => String.mk (b.map Char.ofNat)
  compute_message_hash := fun b => b
  byte_array_to_hex_str := fun b => String.mk (b.map Char.ofNat)
  b64decode := fun b => some b

/-- A provider whose stdlib `b64decode` rejects every input. -/
def toyB64Fail : CryptoProvider :=
  { toyOK with b64decode := fun _ => none }


/-- A UTF-8 per-character chunk is never empty. -/
theorem utf8_encode_char_ne_nil (n : Nat) : utf8_encode_char n ≠ [] := by
  unfold utf8_encode_char; split_ifs <;> simp

/-- UTF-8 is a prefix code: equal concatenations split identically. -/
theorem utf8_encode_char_append_inj (m n : Nat)
    (hm : m < 0x110000) (hn : n < 0x110000) (r1 r2 : List Nat)
    (h : utf8_encode_char m ++ r1 = utf8_encode_char n ++ r2) :
    m = n ∧ r1 = r2 := by
  unfold utf8_encode_char at h
  split_ifs at h <;>
    simp only [List.cons_append, List.nil_append, List.cons.injEq] at h <;>
    first
      | (obtain ⟨e1, e2, e3, e4, e5⟩ := h
         first | (exfalso; omega) | exact ⟨by omega, e5⟩)
      | (obtain ⟨e1, e2, e3, e4⟩ := h
         first | (exfalso; omega) | exact ⟨by omega, e4⟩)
      | (obtain ⟨e1, e2, e3⟩ := h
         first | (exfalso; omega) | exact ⟨by omega, e3⟩)
      | (obtain ⟨e1, e2⟩ := h
         first | (exfalso; omega) | exact ⟨by omega, e2⟩)

/-- Every Lean character's code point is below 0x110000. -/
theorem char_toNat_lt (c : Char) : c.toNat < 0x110000 := by
  rcases c.valid with h | ⟨h1, h2⟩ <;> simp [Char.toNat] <;> omega

/-- Characters with equal code points are equal. -/
theorem char_toNat_inj {c d : Char} (h : c.toNat = d.toNat) : c = d := by
  apply Char.eq_of_val_eq
  apply UInt32.eq_of_toBitVec_eq
  apply BitVec.eq_of_toNat_eq
  exact h

/-- UTF-8 encoding of character lists is injective. -/
theorem utf8_encode_chars_inj :
    ∀ a b : List Char, utf8_encode_chars a = utf8_encode_chars b → a = b := by
  intro a
  induction a with
  | nil =>
    intro b h
    cases b with
    | nil => rfl
    | cons d ds =>
      exfalso
      have h' : utf8_encode_char d.toNat ++ utf8_encode_chars ds = [] := by
        simpa [utf8_encode_chars] using h.symm
      exact utf8_encode_char_ne_nil d.toNat (List.append_eq_nil.mp h').1
  | cons c cs ih =>
    intro b h
    cases b with
    | nil =>
      exfalso
      have h' : utf8_encode_char c.toNat ++ utf8_encode_chars cs = [] := by
        simpa [utf8_encode_chars] using h
      exact utf8_encode_char_ne_nil c.toNat (List.append_eq_nil.mp h').1
    | cons d ds =>
      simp only [utf8_encode_chars] at h
      obtain ⟨h1, h2⟩ :=
        utf8_encode_char_append_inj c.toNat d.toNat
          (char_toNat_lt c) (char_toNat_lt d) _ _ h
      rw [char_toNat_inj h1, ih ds h2]

/-- UTF-8 encoding of strings is injective. -/
theorem utf8_encode_inj {a b : String} (h : utf8_encode a = utf8_encode b) :
    a = b := by
  have h' := utf8_encode_chars_inj a.data b.data h
  cases a; cases b; simp only at h'; rw [h']

/-- Two strings have equal UTF-8 encodings exactly when they are equal. -/
theorem utf8_encode_eq_iff (s t : String) :
    utf8_encode s = utf8_encode t ↔ s = t :=
  ⟨utf8_encode_inj, fun h => by rw [h]⟩

/-- The UTF-8 encoding of a string is empty exactly for the empty string. -/
theorem utf8_encode_eq_nil_iff (s : String) : utf8_encode s = [] ↔ s = "" := by
  have : utf8_encode "" = [] := rfl
  rw [← this]
  exact utf8_encode_eq_iff s ""

/-- Unfold `Except.map` hitting `ok`. -/
theorem except_map_ok {ε α β : Type} (f : α → β) (e : Except ε α) (b : β) :
    e.map f = Except.ok b ↔ ∃ a, e = Except.ok a ∧ f a = b := by
  cases e <;> simp [Except.map]

/-- C8: for every key (even the absent one) and every IV (present or
omitted), `decrypt_data` returns an empty ciphertext unchanged; the result
holds for every provider, so neither base64 decoding nor the
symmetric-decrypt primitive is consulted. -/
theorem claim8_empty_data (cp : CryptoProvider) (key iv : Option Bytes) :
    decrypt_data cp key "" iv = Except.ok "" := rfl

/-- C7: `verify_data_hash m h` returns `true` exactly when `h` uppercased
equals the uppercase hex encoding of the hash of the UTF-8 encoding of `m`;
it is a total boolean function, so a mismatch never raises. -/
theorem claim7_verify_hash (cp : CryptoProvider) (m h : String) :
    verify_data_hash cp m h = true ↔
      pyUpper h
        = pyUpper (cp.byte_array_to_hex_str (compute_data_hash cp m)) := by
  unfold verify_data_hash
  split_ifs with hc
  · simp only [true_iff]
    exact hc.symm
  · simp only [Bool.false_eq_true, false_iff]
    exact fun hh => hc hh.symm

/-- C6: encrypting with `encrypt_data` and decrypting the produced
ciphertext with the same key and IV through `decrypt_data` restores the
plaintext, under the claim's assumption that the symmetric primitives and
the base64 transport are mutually inverse (stated here as: the ciphertext
is a nonempty string that base64-decodes to `ct`, and decrypting `ct`
yields the plaintext back). -/
theorem claim6_round_trip (cp : CryptoProvider) (k : Bytes)
    (iv : Option Bytes) (pt : String) (ct : Bytes)
    (hne : encrypt_data cp pt k iv ≠ "")
    (hb : cp.base64_to_byte_array (encrypt_data cp pt k iv) = some ct)
    (hd : cp.byte_array_to_string
        (match iv with
         | some ivb => cp.SKENC_DecryptMessage k ivb ct
         | none => cp.SKENC_DecryptMessageNoIV k ct) = pt) :
    decrypt_data cp (some k) (encrypt_data cp pt k iv) iv = Except.ok pt := by
  unfold decrypt_data
  rw [if_neg hne, hb]
  cases iv <;> simp_all

/-- Witness for C6 at a concrete toy provider and plaintext. -/
theorem claim6_round_trip_witness :
    decrypt_data toyOK (some [1]) (encrypt_data toyOK "hi" [1] (some [2]))
      (some [2]) = Except.ok "hi" :=
  claim6_round_trip toyOK [1] (some [2]) "hi" [69, 104, 105]
    (by decide) rfl rfl

/-- C4 counterexample: for the single `"-"`-marked item with
`data = "hi"`, the stored output value is the `bytes` object
`b"hi" = [104, 105]` (the UTF-8 encoding produced by
`item['data'].encode('UTF-8')`), which is not the original string value
`"hi"`; so the output is not the input data value untransformed. -/
theorem claim4_cex :
    decrypted_response toyOK ⟨⟨[⟨"hi", "x", "-"⟩]⟩⟩ [1] [2] none none
        = Except.ok (⟨⟨[⟨DataVal.bytes [104, 105], "x", "-"⟩]⟩⟩,
                     [⟨DataVal.bytes [104, 105], "x", "-"⟩])
      ∧ DataVal.bytes [104, 105] ≠ DataVal.str "hi"
      ∧ utf8_encode "hi" = [104, 105] :=
  ⟨rfl, by decide, rfl⟩

/-- C4 amended: for an item whose key id is `"-"`, the loop stores the
UTF-8 byte encoding of the item's `data` string (same byte content, but a
`bytes` value, not the original `str`); no base64 decoding is applied to
the stored value and `decrypt_data` is never invoked for that item — the
result depends only on the logging pipeline `b64decode` / UTF-8 decode,
never on the decrypt primitives or any key. -/
theorem claim4_skip_stores_bytes (cp : CryptoProvider) (sk si : Bytes)
    (dk di : Option Bytes) (dd : Bool) (item : OutDataItem)
    (rest : List OutDataItem)
    (h : item.encryptedDataEncryptionKey = "-") :
    processOutData cp sk si dk di dd (item :: rest) =
      match cp.b64decode (utf8_encode item.data) with
      | none => Except.error UtilError.base64DecodeError
      | some decoded =>
        match utf8_decode_list decoded with
        | none => Except.error UtilError.unicodeDecodeError
        | some _ =>
          (processOutData cp sk si dk di false rest).map
            (fun rs =>
              ⟨DataVal.bytes (utf8_encode item.data), item.iv,
               item.encryptedDataEncryptionKey⟩ :: rs) := by
  have hsel :
      (if utf8_encode item.encryptedDataEncryptionKey = []
          ∨ utf8_encode item.encryptedDataEncryptionKey = utf8_encode "null"
        then (some sk, some si, dd)
        else if utf8_encode item.encryptedDataEncryptionKey = utf8_encode "-"
        then ((none : Option Bytes), some (utf8_encode item.iv), false)
        else (dk, di, dd))
        = ((none : Option Bytes), some (utf8_encode item.iv), false) := by
    rw [h]
    rw [if_neg (by decide), if_pos rfl]
  simp only [processOutData, hsel]
  rw [if_pos trivial]

/-- Witness for the amended C4 theorem at a concrete item. -/
theorem claim4_skip_witness :
    processOutData toyOK [1] [2] none none true [⟨"hi", "x", "-"⟩]
      = Except.ok [⟨DataVal.bytes (utf8_encode "hi"), "x", "-"⟩] :=
  claim4_skip_stores_bytes toyOK [1] [2] none none true ⟨"hi", "x", "-"⟩ [] rfl

/-- C3 counterexample: this response contains an item whose
`encryptedDataEncryptionKey` (`"KEYID"`) is non-empty and neither `"null"`
nor `"-"`, yet calling `decrypted_response` without a data-key context
succeeds instead of raising `MissingKeyContext`, because the item's `data`
is empty and `decrypt_data` short-circuits before touching the key. -/
theorem claim3_cex :
    decrypted_response toyOK ⟨⟨[⟨"", "x", "KEYID"⟩]⟩⟩ [1] [2] none none
      = Except.ok (⟨⟨[⟨DataVal.str "", "x", "KEYID"⟩]⟩⟩,
                   [⟨DataVal.str "", "x", "KEYID"⟩]) := rfl

/-- C3 amended: when an item with a non-empty key id other than `"null"`
and `"-"` is reached with decryption still enabled, and its `data` is a
non-empty string accepted by the base64 decoder, then processing with no
data key supplied fails with `MissingKeyContext`; and with a data key
supplied, the item is decrypted with exactly `data_key` / `data_iv`. -/
theorem claim3_missing_key (cp : CryptoProvider) (sk si : Bytes)
    (di : Option Bytes) (dk : Bytes) (item : OutDataItem)
    (rest : List OutDataItem)
    (h1 : item.encryptedDataEncryptionKey ≠ "")
    (h2 : item.encryptedDataEncryptionKey ≠ "null")
    (h3 : item.encryptedDataEncryptionKey ≠ "-")
    (h4 : item.data ≠ "")
    (h5 : (cp.base64_to_byte_array item.data).isSome = true) :
    processOutData cp sk si none di true (item :: rest)
        = Except.error UtilError.missingKeyContext
      ∧ processOutData cp sk si (some dk) di true (item :: rest)
        = match decrypt_data cp (some dk) item.data di with
          | Except.error e => Except.error e
          | Except.ok plain =>
            (processOutData cp sk si (some dk) di true rest).map
              (fun rs =>
                ⟨DataVal.str plain, item.iv,
                 item.encryptedDataEncryptionKey⟩ :: rs) := by
  have hc1 : ¬(utf8_encode item.encryptedDataEncryptionKey = []
      ∨ utf8_encode item.encryptedDataEncryptionKey = utf8_encode "null") := by
    rintro (hh | hh)
    · exact h1 ((utf8_encode_eq_nil_iff _).mp hh)
    · exact h2 ((utf8_encode_eq_iff _ _).mp hh)
  have hc2 : ¬(utf8_encode item.encryptedDataEncryptionKey
      = utf8_encode "-") :=
    fun hh => h3 ((utf8_encode_eq_iff _ _).mp hh)
  have hdd : decrypt_data cp none item.data di
      = Except.error UtilError.missingKeyContext := by
    unfold decrypt_data
    rw [if_neg h4]
    obtain ⟨b, hb⟩ := Option.isSome_iff_exists.mp h5
    rw [hb]
  constructor
  · have hsel :
        (if utf8_encode item.encryptedDataEncryptionKey = []
            ∨ utf8_encode item.encryptedDataEncryptionKey
                = utf8_encode "null"
          then (some sk, some si, true)
          else if utf8_encode item.encryptedDataEncryptionKey
              = utf8_encode "-"
          then ((none : Option Bytes), some (utf8_encode item.iv), false)
          else ((none : Option Bytes), di, true))
          = ((none : Option Bytes), di, true) := by
      rw [if_neg hc1, if_neg hc2]
    simp only [processOutData, hsel]
    rw [if_neg (by simp), hdd]
  · have hsel :
        (if utf8_encode item.encryptedDataEncryptionKey = []
            ∨ utf8_encode item.encryptedDataEncryptionKey
                = utf8_encode "null"
          then (some sk, some si, true)
          else if utf8_encode item.encryptedDataEncryptionKey
              = utf8_encode "-"
          then ((none : Option Bytes), some (utf8_encode item.iv), false)
          else (some dk, di, true))
          = (some dk, di, true) := by
      rw [if_neg hc1, if_neg hc2]
    simp only [processOutData, hsel]
    rw [if_neg (by simp)]

/-- Witness for the amended C3 theorem at a concrete item, with and
without the data-key context. -/
theorem claim3_missing_key_witness :
    processOutData toyOK [1] [2] none (some [2]) true [⟨"CT", "x", "KEYID"⟩]
        = Except.error UtilError.missingKeyContext
      ∧ processOutData toyOK [1] [2] (some [9]) (some [2]) true
          [⟨"CT", "x", "KEYID"⟩]
        = Except.ok [⟨DataVal.str "T", "x", "KEYID"⟩] :=
  claim3_missing_key toyOK [1] [2] (some [2]) [9] ⟨"CT", "x", "KEYID"⟩ []
    (by decide) (by decide) (by decide) (by decide) rfl

/-- C2 counterexample: after a successful call the input's `outData` entry
no longer holds its original `data` value — the source overwrote
`input_json['result']['outData'][0]['data']` with the decrypted string and
returned that same mutated sequence. -/
theorem claim2_cex :
    decrypted_response toyOK ⟨⟨[⟨"CT", "x", "null"⟩]⟩⟩ [7] [8] none none
        = Except.ok (⟨⟨[⟨DataVal.str "T", "x", "null"⟩]⟩⟩,
                     [⟨DataVal.str "T", "x", "null"⟩])
      ∧ DataVal.str "T" ≠ DataVal.str "CT" :=
  ⟨rfl, by decide⟩

/-- C2 amended: `decrypted_response` updates the caller's response object
in place and returns the input's own (now updated) `outData` sequence —
the post-call state of `input_json.result.outData` is exactly the returned
sequence, not an independent copy leaving the input intact. -/
theorem claim2_returns_updated_input (cp : CryptoProvider)
    (resp : WorkOrderResponse) (sk si : Bytes) (dk di : Option Bytes)
    (post : WorkOrderResponsePost) (ret : List OutItemResult)
    (h : decrypted_response cp resp sk si dk di = Except.ok (post, ret)) :
    post.result.outData = ret := by
  unfold decrypted_response at h
  rw [except_map_ok] at h
  obtain ⟨rs, _, hpair⟩ := h
  injection hpair with hp hr
  rw [← hp, ← hr]

/-- Witness for the amended C2 theorem at a concrete response. -/
theorem claim2_returns_updated_input_witness :
    (⟨⟨[⟨DataVal.str "T", "x", "null"⟩]⟩⟩
        : WorkOrderResponsePost).result.outData
      = [⟨DataVal.str "T", "x", "null"⟩] :=
  claim2_returns_updated_input toyOK ⟨⟨[⟨"CT", "x", "null"⟩]⟩⟩ [7] [8]
    none none ⟨⟨[⟨DataVal.str "T", "x", "null"⟩]⟩⟩
    [⟨DataVal.str "T", "x", "null"⟩] rfl

/-- Every successful run of the out-data loop produces one output entry
per input item, in order, preserving the `iv` and
`encryptedDataEncryptionKey` fields positionally. -/
theorem processOutData_ok_shape (cp : CryptoProvider) (sk si : Bytes)
    (dk di : Option Bytes) :
    ∀ (dd : Bool) (l : List OutDataItem) (rs : List OutItemResult),
      processOutData cp sk si dk di dd l = Except.ok rs →
      List.Forall₂
        (fun (o : OutItemResult) (it : OutDataItem) =>
          o.iv = it.iv
            ∧ o.encryptedDataEncryptionKey = it.encryptedDataEncryptionKey)
        rs l := by
  intro dd l
  induction l generalizing dd with
  | nil =>
    intro rs h
    injection h with h'
    rw [← h']
    exact List.Forall₂.nil
  | cons item rest ih =>
    intro rs h
    simp only [processOutData] at h
    repeat' split at h
    all_goals
      first
        | exact Except.noConfusion h
        | (rw [except_map_ok] at h
           obtain ⟨rs', hrec, hcons⟩ := h
           rw [← hcons]
           exact List.Forall₂.cons ⟨rfl, rfl⟩ (ih _ rs' hrec))

/-- C5: the sequence returned by a successful `decrypted_response` has the
same length as the input `result.outData` and corresponds to it item by
item in order (position `i` of the output is built from position `i` of
the input, keeping its `iv` and key-id fields); on an empty `outData` the
result is the empty sequence for every provider, so no provider call is
made. -/
theorem claim5_length_order :
    (∀ (cp : CryptoProvider) (resp : WorkOrderResponse) (sk si : Bytes)
        (dk di : Option Bytes) (post : WorkOrderResponsePost)
        (ret : List OutItemResult),
      decrypted_response cp resp sk si dk di = Except.ok (post, ret) →
        ret.length = resp.result.outData.length
          ∧ List.Forall₂
              (fun (o : OutItemResult) (it : OutDataItem) =>
                o.iv = it.iv
                  ∧ o.encryptedDataEncryptionKey
                      = it.encryptedDataEncryptionKey)
              ret resp.result.outData)
      ∧ ∀ (cp : CryptoProvider) (sk si : Bytes) (dk di : Option Bytes),
          decrypted_response cp ⟨⟨[]⟩⟩ sk si dk di
            = Except.ok (⟨⟨[]⟩⟩, ([] : List OutItemResult)) := by
  constructor
  · intro cp resp sk si dk di post ret h
    unfold decrypted_response at h
    rw [except_map_ok] at h
    obtain ⟨rs, hrec, hpair⟩ := h
    injection hpair with hp hr
    rw [← hr]
    have hf := processOutData_ok_shape cp sk si dk di true
      resp.result.outData rs hrec
    exact ⟨hf.length_eq, hf⟩
  · intro cp sk si dk di
    rfl

/-- Witness for C5 at a concrete single-item response. -/
theorem claim5_length_order_witness :
    (([⟨DataVal.str "T", "x", "null"⟩] : List OutItemResult).length
        = ([⟨"CT", "x", "null"⟩] : List OutDataItem).length)
      ∧ List.Forall₂
          (fun (o : OutItemResult) (it : OutDataItem) =>
            o.iv = it.iv
              ∧ o.encryptedDataEncryptionKey
                  = it.encryptedDataEncryptionKey)
          [⟨DataVal.str "T", "x", "null"⟩] [⟨"CT", "x", "null"⟩] :=
  claim5_length_order.1 toyOK ⟨⟨[⟨"CT", "x", "null"⟩]⟩⟩ [7] [8] none none
    ⟨⟨[⟨DataVal.str "T", "x", "null"⟩]⟩⟩ [⟨DataVal.str "T", "x", "null"⟩] rfl

/-- If the out-data loop succeeds, then every `"-"`-marked item it
processed had `data` whose encoded bytes pass the logging pipeline
(stdlib base64 decode followed by strict UTF-8 decode). -/
theorem processOutData_ok_skip_decodes (cp : CryptoProvider)
    (sk si : Bytes) (dk di : Option Bytes) :
    ∀ (dd : Bool) (l : List OutDataItem) (rs : List OutItemResult),
      processOutData cp sk si dk di dd l = Except.ok rs →
      ∀ item ∈ l, item.encryptedDataEncryptionKey = "-" →
        ¬((cp.b64decode (utf8_encode item.data)).bind
            (fun d => utf8_decode_list d) = none) := by
  intro dd l
  induction l generalizing dd with
  | nil =>
    intro rs h item hm
    cases hm
  | cons hd rest ih =>
    intro rs h item hm hkey hbad
    rcases List.mem_cons.mp hm with heq | hm'
    · subst heq
      have hsel :
          (if utf8_encode item.encryptedDataEncryptionKey = []
              ∨ utf8_encode item.encryptedDataEncryptionKey
                  = utf8_encode "null"
            then (some sk, some si, dd)
            else if utf8_encode item.encryptedDataEncryptionKey
                = utf8_encode "-"
            then ((none : Option Bytes), some (utf8_encode item.iv), false)
            else (dk, di, dd))
            = ((none : Option Bytes), some (utf8_encode item.iv), false) := by
        rw [hkey]
        rw [if_neg (by decide), if_pos rfl]
      simp only [processOutData, hsel] at h
      rw [if_pos trivial] at h
      cases hb : cp.b64decode (utf8_encode item.data) with
      | none => simp [hb] at h
      | some d =>
        cases hu : utf8_decode_list d with
        | none => simp [hb, hu] at h
        | some cs =>
          rw [hb] at hbad
          simp [hu] at hbad
    · simp only [processOutData] at h
      repeat' split at h
      all_goals
        first
          | exact Except.noConfusion h
          | (rw [except_map_ok] at h
             obtain ⟨rs', hrec, _⟩ := h
             exact (ih _ rs' hrec item hm' hkey) hbad)

/-- C10: the skip branch for a `"-"`-marked item base64-decodes and then
UTF-8-decodes the item's encoded `data` for logging, so whenever that
pipeline rejects the data (`none`), `decrypted_response` raises instead of
returning an updated sequence. -/
theorem claim10_skip_requires_decodable (cp : CryptoProvider)
    (resp : WorkOrderResponse) (sk si : Bytes) (dk di : Option Bytes)
    (item : OutDataItem) (hmem : item ∈ resp.result.outData)
    (hkey : item.encryptedDataEncryptionKey = "-")
    (hbad : (cp.b64decode (utf8_encode item.data)).bind
        (fun d => utf8_decode_list d) = none) :
    ∃ e, decrypted_response cp resp sk si dk di = Except.error e := by
  cases hx : processOutData cp sk si dk di true resp.result.outData with
  | error e =>
    refine ⟨e, ?_⟩
    unfold decrypted_response
    rw [hx]
    rfl
  | ok rs =>
    exact absurd hbad (processOutData_ok_skip_decodes cp sk si dk di true
      resp.result.outData rs hx item hmem hkey)

/-- Witness for C10: a provider whose `b64decode` rejects everything makes
the call on a single `"-"`-marked item fail. -/
theorem claim10_skip_requires_decodable_witness :
    ∃ e, decrypted_response toyB64Fail ⟨⟨[⟨"p", "x", "-"⟩]⟩⟩ [1] [2]
        none none = Except.error e :=
  claim10_skip_requires_decodable toyB64Fail ⟨⟨[⟨"p", "x", "-"⟩]⟩⟩ [1] [2]
    none none ⟨"p", "x", "-"⟩ (List.Mem.head _) rfl rfl

/-- C1 (defect witness): in a response whose first item carries the `"-"`
sentinel, the second item — whose key id is empty and which the spec says
must be decrypted with the session key — is instead stored as raw bytes,
because the `do_decrypt` flag set to false by the first item is never
reset.  Session-key decryption of that item would have produced the
string `"T"` under this provider, which differs from the bytes actually
stored. -/
theorem claim1_carried_flag_eval :
    decrypted_response toyOK ⟨⟨[⟨"p", "x", "-"⟩, ⟨"CT", "y", ""⟩]⟩⟩
        [7] [8] none none
      = Except.ok (⟨⟨[⟨DataVal.bytes [112], "x", "-"⟩,
                      ⟨DataVal.bytes [67, 84], "y", ""⟩]⟩⟩,
                   [⟨DataVal.bytes [112], "x", "-"⟩,
                    ⟨DataVal.bytes [67, 84], "y", ""⟩])
      ∧ decrypt_data toyOK (some [7]) "CT" (some [8]) = Except.ok "T"
      ∧ DataVal.bytes [67, 84] ≠ DataVal.str "T" :=
  ⟨rfl, rfl, by decide⟩

/-- C9: `human_read_to_byte` raises `ValueError` on every malformed size
string — not exactly two whitespace-separated tokens, first token not
parsing to a positive integer, or second token (uppercased) not a unit of
the table — and on a well-formed string whose unit sits at index `k` of
the table it returns `n * 1024 ^ k`. -/
theorem claim9_human_read_to_byte :
    (∀ s : String, (pySplit s).length ≠ 2 →
        human_read_to_byte s = Except.error UtilError.valueError)
      ∧ (∀ s t u : String, pySplit s = [t, u] →
          (¬∃ n : Int, pyIntParse t = some n ∧ 0 < n) →
          human_read_to_byte s = Except.error UtilError.valueError)
      ∧ (∀ s t u : String, pySplit s = [t, u] →
          listIndex? size_name (pyUpper u) = none →
          human_read_to_byte s = Except.error UtilError.valueError)
      ∧ (∀ (s t u : String) (n : Int) (k : Nat), pySplit s = [t, u] →
          pyIntParse t = some n → 0 < n →
          listIndex? size_name (pyUpper u) = some k →
          human_read_to_byte s = Except.ok (n * (1024 : Int) ^ k)) := by
  refine ⟨?_, ?_, ?_, ?_⟩
  · intro s h
    simp only [human_read_to_byte]
    rw [if_pos h]
  · intro s t u hsp hnot
    simp only [human_read_to_byte, hsp]
    rw [if_neg (by simp)]
    cases hp : pyIntParse t with
    | none => simp [hp]
    | some n =>
      have hn : n ≤ 0 := by
        by_contra hc
        exact hnot ⟨n, hp, by omega⟩
      simp [hp, hn]
  · intro s t u hsp hidx
    simp only [human_read_to_byte, hsp]
    rw [if_neg (by simp)]
    cases hp : pyIntParse t with
    | none => simp [hp]
    | some n =>
      by_cases hn : n ≤ 0
      · simp [hp, hn]
      · simp [hp, hn, hidx]
  · intro s t u n k hsp hp hn hidx
    have hn' : ¬n ≤ 0 := by omega
    simp only [human_read_to_byte, hsp]
    rw [if_neg (by simp)]
    simp [hp, hn', hidx]

/-- Witness for C9 on the four shapes: one token, non-positive number,
unknown unit, and a well-formed lower-case size string. -/
theorem claim9_human_read_to_byte_witness :
    human_read_to_byte "3" = Except.error UtilError.valueError
      ∧ human_read_to_byte "0 B" = Except.error UtilError.valueError
      ∧ human_read_to_byte "2 XB" = Except.error UtilError.valueError
      ∧ human_read_to_byte "2 kb" = Except.ok 2048 :=
  ⟨claim9_human_read_to_byte.1 "3" (by decide),
   claim9_human_read_to_byte.2.1 "0 B" "0" "B" rfl
     (fun h => by
       obtain ⟨n, hpn, hlt⟩ := h
       have h0 : pyIntParse "0" = some 0 := rfl
       rw [h0] at hpn
       have := Option.some.inj hpn
       omega),
   claim9_human_read_to_byte.2.2.1 "2 XB" "2" "XB" rfl rfl,
   claim9_human_read_to_byte.2.2.2 "2 kb" "2" "kb" 2 1 rfl rfl
     (by decide) rfl⟩
